import Mathlib

/-
Shallow embedding of the request pipeline of `src/tumblr.js` (tumblr.js API
client, serguun42 fork).

The embedding covers:
  * a model of JavaScript JSON values, their truthiness, `String()` conversion
    and `JSON.stringify` serialization;
  * the response classifier and the one-shot completion guard of
    `Client.#makeRequest` (the `end` / `error` event handlers);
  * the request planner `Client.#prepareRequestUrlAndRequestData`
    (URLSearchParams `set`/`append` semantics included);
  * the payload encoder of `Client.#makeRequest` (multipart vs JSON body);
  * the NPF parameter transformer `Client.#transformNpfParams`;
  * the credential resolution of `Client.constructor`;
  * the transport module selection of `Client.#makeRequest`.

External library behavior that the code calls into is modeled at its
interface: `JSON.parse` results are represented as `Option JsonValue`
(`none` = parse failure), URL resolution against the base endpoint is
represented by an already-resolved `Url` value, and a Node `fs.ReadStream`
is represented by an opaque numeric stream id.
-/

set_option maxHeartbeats 1000000

/-! ## JavaScript JSON values -/

/-- A JavaScript value as produced by `JSON.parse` / consumed by
`JSON.stringify`: null, booleans, (integer) numbers, strings, arrays and
objects (ordered field lists). -/
inductive JsonValue where
  | null
  | bool (b : Bool)
  | num (n : Int)
  | str (s : String)
  | arr (elems : List JsonValue)
  | obj (fields : List (String × JsonValue))

/-- First-match field lookup in an object's field list (JavaScript objects
obtained from `JSON.parse` have unique keys, so first-match equals the
JavaScript property access). -/
def lookupField : List (String × JsonValue) → String → Option JsonValue
  | [], _ => none
  | (k', v) :: rest, k => if k' == k then some v else lookupField rest k

/-- JavaScript property access `v[k]`: defined on objects, `undefined`
(modeled as `none`) on every other value. -/
def getProp : JsonValue → String → Option JsonValue
  | JsonValue.obj fs, k => lookupField fs k
  | _, _ => none

/-- Optional chaining `x?.k`: `undefined` when `x` is `undefined` or `null`,
property access otherwise. -/
def optProp : Option JsonValue → String → Option JsonValue
  | none, _ => none
  | some JsonValue.null, _ => none
  | some v, k => getProp v k

/-- Nullish coalescing `a ?? d`: the default when `a` is `undefined` or
`null`, otherwise `a` itself. -/
def nullCoalesce : Option JsonValue → JsonValue → JsonValue
  | none, d => d
  | some JsonValue.null, d => d
  | some v, _ => v

/-- JavaScript truthiness of a JSON value. -/
def JsonValue.truthy : JsonValue → Bool
  | JsonValue.null => false
  | JsonValue.bool b => b
  | JsonValue.num n => !(n == 0)
  | JsonValue.str s => !(s.isEmpty)
  | JsonValue.arr _ => true
  | JsonValue.obj _ => true

/-! ## `JSON.stringify` model -/

/-- Lowercase hexadecimal digit. -/
def hexDigit (n : Nat) : String :=
  if n < 10 then toString n
  else if n == 10 then "a"
  else if n == 11 then "b"
  else if n == 12 then "c"
  else if n == 13 then "d"
  else if n == 14 then "e"
  else "f"

/-- The escape of one character inside a JSON string literal, as
`JSON.stringify` produces it. -/
def escapeJsonChar (c : Char) : String :=
  if c = '\"' then "\\\""
  else if c = '\\' then "\\\\"
  else if c = '\n' then "\\n"
  else if c = '\r' then "\\r"
  else if c = '\t' then "\\t"
  else if c = Char.ofNat 8 then "\\b"
  else if c = Char.ofNat 12 then "\\f"
  else if c.toNat < 32 then "\\u00" ++ hexDigit (c.toNat / 16) ++ hexDigit (c.toNat % 16)
  else String.singleton c

/-- A JSON string literal with its surrounding quotes. -/
def serializeJsonString (s : String) : String :=
  "\"" ++ String.join (s.data.map escapeJsonChar) ++ "\""

mutual

/-- `JSON.stringify` of a JSON value. -/
def serializeJson : JsonValue → String
  | JsonValue.null => "null"
  | JsonValue.bool b => if b then "true" else "false"
  | JsonValue.num n => toString n
  | JsonValue.str s => serializeJsonString s
  | JsonValue.arr xs => "[" ++ serializeJsonArray xs ++ "]"
  | JsonValue.obj fs => "\x7b" ++ serializeJsonFields fs ++ "\x7d"

/-- Comma-separated serialization of the elements of a JSON array. -/
def serializeJsonArray : List JsonValue → String
  | [] => ""
  | [x] => serializeJson x
  | x :: y :: rest => serializeJson x ++ "," ++ serializeJsonArray (y :: rest)

/-- Comma-separated serialization of the fields of a JSON object. -/
def serializeJsonFields : List (String × JsonValue) → String
  | [] => ""
  | [(k, v)] => serializeJsonString k ++ ":" ++ serializeJson v
  | (k, v) :: f :: rest =>
    serializeJsonString k ++ ":" ++ serializeJson v ++ "," ++ serializeJsonFields (f :: rest)

end

/-! ## JavaScript `String()` conversion -/

mutual

/-- JavaScript `String(v)` conversion of a JSON value (used by
`URLSearchParams.set`/`append` on non-string values). -/
def jsonToString : JsonValue → String
  | JsonValue.null => "null"
  | JsonValue.bool b => if b then "true" else "false"
  | JsonValue.num n => toString n
  | JsonValue.str s => s
  | JsonValue.arr xs => jsonArrayToString xs
  | JsonValue.obj _ => "[object Object]"

/-- `Array.prototype.toString` = `join(",")`; `null` elements render as the
empty string inside a join. -/
def jsonArrayToString : List JsonValue → String
  | [] => ""
  | [x] => jsonElemToString x
  | x :: y :: rest => jsonElemToString x ++ "," ++ jsonArrayToString (y :: rest)

/-- One element inside `Array.prototype.join`: like `String()` except that
`null` becomes the empty string. -/
def jsonElemToString : JsonValue → String
  | JsonValue.null => ""
  | JsonValue.bool b => if b then "true" else "false"
  | JsonValue.num n => toString n
  | JsonValue.str s => s
  | JsonValue.arr xs => jsonArrayToString xs
  | JsonValue.obj _ => "[object Object]"

end

/-! ## Response classification (`#makeRequest`, `response`/`end` handler) -/

/-- The error classes the request pipeline produces (the payload of the
`Error` values built in `#makeRequest`). -/
inductive RequestError where
  | malformedRaw (rawBody : String)
  | apiError (status : Nat) (msg : JsonValue)
  | malformedParsed (parsed : JsonValue)
  | transport (msg : String)

/-- The settled result of a request's promise. -/
inductive Outcome where
  | success (value : JsonValue)
  | failure (err : RequestError)

/-- `parsedData?.meta?.msg ?? parsedData?.error ?? "unknown"`. -/
def apiErrorMessage (parsedData : JsonValue) : JsonValue :=
  nullCoalesce (optProp (optProp (some parsedData) "meta") "msg")
    (nullCoalesce (optProp (some parsedData) "error") (JsonValue.str "unknown"))

/-- The body of the `end` handler of `#makeRequest`: parse the accumulated
body text (`parseResult` stands for `JSON.parse responseData`, `none` on a
parse error), then classify by HTTP status, then unwrap the envelope's
truthy `response` field. -/
def classifyResponse (statusCode : Nat) (parseResult : Option JsonValue)
    (rawBody : String) : Outcome :=
  match parseResult with
  | none => Outcome.failure (RequestError.malformedRaw rawBody)
  | some parsedData =>
    if statusCode < 200 || statusCode > 399 then
      Outcome.failure (RequestError.apiError statusCode (apiErrorMessage parsedData))
    else
      match optProp (some parsedData) "response" with
      | some r =>
        if r.truthy then Outcome.success r
        else Outcome.failure (RequestError.malformedParsed parsedData)
      | none => Outcome.failure (RequestError.malformedParsed parsedData)

/-! ## One-shot completion guard (`#makeRequest`, `callbackCalled`) -/

/-- An asynchronous event that can try to complete a request: the response
`end` event (carrying the final status and accumulated body) or a transport
`error` event. -/
inductive RequestEvent where
  | endEvent (statusCode : Nat) (parseResult : Option JsonValue) (rawBody : String)
  | errorEvent (msg : String)

/-- What an event resolves or rejects the promise with, were it the first
event to fire. -/
def handleEvent : RequestEvent → Outcome
  | RequestEvent.endEvent st p raw => classifyResponse st p raw
  | RequestEvent.errorEvent m => Outcome.failure (RequestError.transport m)

/-- Mutable per-request completion state: the `callbackCalled` guard plus
the settled outcome of the promise (if any). -/
structure RequestCompletionState where
  callbackCalled : Bool
  outcome : Option Outcome

/-- One event arriving at the request: both handlers first check
`callbackCalled` and return, otherwise set it and settle the promise. -/
def stepRequest (s : RequestCompletionState) (e : RequestEvent) : RequestCompletionState :=
  if s.callbackCalled then s
  else { callbackCalled := true, outcome := some (handleEvent e) }

/-- A whole request lifetime: the events fire in sequence against the fresh
completion state. -/
def runRequest (events : List RequestEvent) : RequestCompletionState :=
  events.foldl stepRequest { callbackCalled := false, outcome := none }

/-! ## URLs and `URLSearchParams` -/

/-- The parts of a WHATWG `URL` value that the client manipulates. The query
is the ordered pair list backing `url.searchParams`. -/
structure Url where
  scheme : String
  host : String
  path : String
  query : List (String × String)

/-- WHATWG `url.protocol`: the scheme followed by a colon. -/
def Url.protocol (u : Url) : String := u.scheme ++ ":"

/-- Remove every pair whose key matches (helper of `URLSearchParams.set`). -/
def spRemove : List (String × String) → String → List (String × String)
  | [], _ => []
  | (k', v') :: rest, k =>
    if k' == k then spRemove rest k else (k', v') :: spRemove rest k

/-- `URLSearchParams.set`: replace the value of the first pair with a
matching key and drop every later matching pair; append if no pair
matches. -/
def spSet (q : List (String × String)) (k v : String) : List (String × String) :=
  match q with
  | [] => [(k, v)]
  | (k', v') :: rest =>
    if k' == k then (k, v) :: spRemove rest k
    else (k', v') :: spSet rest k v

/-! ## Request planner (`#prepareRequestUrlAndRequestData`) -/

/-- A value of a logical request parameter: an arbitrary JavaScript JSON
value, or a Node `fs.ReadStream` handle. -/
inductive ParamValue where
  | jsonVal (j : JsonValue)
  | stream (streamId : Nat)

/-- `String()` conversion of a parameter value (streams are plain objects
for the purpose of `String()`). -/
def ParamValue.toDisplayString : ParamValue → String
  | ParamValue.jsonVal j => jsonToString j
  | ParamValue.stream _ => "[object Object]"

/-- The indexed key `k[i]` used for array expansion. -/
def indexName (k : String) (i : Nat) : String :=
  k ++ "[" ++ toString i ++ "]"

/-- Array expansion on a GET request: one appended query pair
`k[i] = String(element)` per element, in element order. -/
def expandArray (k : String) (xs : List JsonValue) : List (String × String) :=
  xs.enum.map (fun p => (indexName k p.1, jsonToString p.2))

/-- Processing of one logical parameter on a GET request: arrays are
expanded and appended, every other value is `set` directly. -/
def stepGetParam (q : List (String × String)) (kv : String × ParamValue) :
    List (String × String) :=
  match kv.2 with
  | ParamValue.jsonVal (JsonValue.arr xs) => q ++ expandArray kv.1 xs
  | v => spSet q kv.1 v.toDisplayString

/-- `Map.has` / key presence in an ordered key-value list. -/
def hasKey (m : List (String × ParamValue)) (k : String) : Bool :=
  m.any (fun p => p.1 == k)

/-- `Map.get` / first-match value lookup in an ordered key-value list
(`Map` keys are unique, so first-match equals the `Map` lookup). -/
def lookupValue : List (String × ParamValue) → String → Option ParamValue
  | [], _ => none
  | (k', v) :: rest, k => if k' == k then some v else lookupValue rest k

/-- Merging one inherited query pair into the write payload: only when the
payload does not already contain the key (`requestData.has(key)`). -/
def mergeQueryEntry (m : List (String × ParamValue)) (kv : String × String) :
    List (String × ParamValue) :=
  if hasKey m kv.1 then m
  else m ++ [(kv.1, ParamValue.jsonVal (JsonValue.str kv.2))]

/-- The write-request payload: the logical parameters (a `Map` built from
`Object.entries(params)`, insertion-ordered) with the URL's query entries
merged in where absent. -/
def writeRequestData (u : Url) (params : List (String × ParamValue)) :
    List (String × ParamValue) :=
  u.query.foldl mergeQueryEntry params

/-- The request verb. -/
inductive Method where
  | get
  | post
  | put

/-- `#prepareRequestUrlAndRequestData`: GET moves every logical parameter
into the URL's query string and carries no payload; POST/PUT move the
parameters into the payload, merge inherited query keys, clear the query,
and return `none` instead of an empty payload. `u` is the `URL` already
resolved against the base endpoint. -/
def prepareRequestUrlAndRequestData (u : Url) (m : Method)
    (params : Option (List (String × ParamValue))) :
    Url × Option (List (String × ParamValue)) :=
  match m with
  | Method.get =>
    let q := match params with
      | some ps => ps.foldl stepGetParam u.query
      | none => u.query
    ({ u with query := q }, none)
  | _ =>
    let rd := writeRequestData u (match params with | some ps => ps | none => [])
    ({ u with query := [] }, if rd.isEmpty then none else some rd)

/-! ## Payload encoder (`#makeRequest`, body construction) -/

/-- What is handed to `form.append` as a part's content: a string, a binary
stream, or some other raw JavaScript value. -/
inductive AppendedValue where
  | str (s : String)
  | stream (streamId : Nat)
  | other (j : JsonValue)

/-- How a raw array element reaches `form.append`: strings stay strings,
everything else is appended as-is. -/
def appendedValue : JsonValue → AppendedValue
  | JsonValue.str s => AppendedValue.str s
  | j => AppendedValue.other j

/-- One named multipart part, with its optionally declared content type. -/
structure FormPart where
  name : String
  value : AppendedValue
  contentType : Option String

/-- The parts appended for one payload entry, following the `if` chain of
the multipart branch: the `json` key with a string value gets a declared
`application/json` content type; arrays expand to `key[i]` parts in order;
booleans are stringified with `JSON.stringify`; everything else is appended
verbatim. -/
def appendFormEntry (k : String) (v : ParamValue) : List FormPart :=
  match v with
  | ParamValue.jsonVal (JsonValue.str s) =>
    if k == "json" then [⟨k, AppendedValue.str s, some "application/json"⟩]
    else [⟨k, AppendedValue.str s, none⟩]
  | ParamValue.jsonVal (JsonValue.arr xs) =>
    xs.enum.map (fun p => ⟨indexName k p.1, appendedValue p.2, none⟩)
  | ParamValue.jsonVal (JsonValue.bool b) =>
    [⟨k, AppendedValue.str (if b then "true" else "false"), none⟩]
  | ParamValue.jsonVal j => [⟨k, AppendedValue.other j, none⟩]
  | ParamValue.stream sid => [⟨k, AppendedValue.stream sid, none⟩]

/-- `data.has("data") || data.has("data64") || data.has("json")`. -/
def usesMultipart (data : List (String × ParamValue)) : Bool :=
  hasKey data "data" || hasKey data "data64" || hasKey data "json"

/-- The JSON image of a payload value under `JSON.stringify`
(`fs.ReadStream` has no JSON-relevant enumerable state in this model). -/
def paramValueToJson : ParamValue → JsonValue
  | ParamValue.jsonVal j => j
  | ParamValue.stream _ => JsonValue.obj []

/-- The encoded request body: a multipart form or a single JSON text. -/
inductive RequestBody where
  | multipartBody (parts : List FormPart)
  | jsonBody (text : String)

/-- The body-construction branch of `#makeRequest`: multipart when one of
the keys `data`, `data64`, `json` is present, otherwise
`JSON.stringify(Object.fromEntries(data.entries()))`. -/
def encodeRequestBody (data : List (String × ParamValue)) : RequestBody :=
  if usesMultipart data then
    RequestBody.multipartBody (data.flatMap (fun p => appendFormEntry p.1 p.2))
  else
    RequestBody.jsonBody
      (serializeJson (JsonValue.obj (data.map (fun p => (p.1, paramValueToJson p.2)))))

/-! ## NPF parameter transformer (`#transformNpfParams`) -/

/-- The possible values of a content block's `media` field: a Node
`fs.ReadStream` (the only binary-bearing case the code recognizes), a
`Buffer`, a generic readable stream, or a plain JSON-like value (URL
string, structural object, ...). -/
inductive MediaValue where
  | readStream (streamId : Nat)
  | buffer (bytes : List Nat)
  | readable (streamId : Nat)
  | jsonLike (j : JsonValue)

/-- `instanceof ReadStream`. -/
def isReadStream : MediaValue → Bool
  | MediaValue.readStream _ => true
  | _ => false

/-- One NPF content block: its `media` field (if any) and its remaining
fields. -/
structure Block where
  media : Option MediaValue
  rest : List (String × JsonValue)

/-- The structural replacement `{identifier: String(i)}`. -/
def identifierObj (i : Nat) : JsonValue :=
  JsonValue.obj [("identifier", JsonValue.str (toString i))]

/-- The per-block body of `content.map((block, index) => ...)`: a block
whose `media` is an `fs.ReadStream` gets the positional identifier object,
every other block passes through unchanged. -/
def transformBlock (i : Nat) (b : Block) : Block :=
  match b.media with
  | some (MediaValue.readStream _) =>
    { b with media := some (MediaValue.jsonLike (identifierObj i)) }
  | _ => b

/-- The side-map insertion of the same loop iteration:
`mediaStreams.set(String(index), block.media)` for `ReadStream` media. -/
def extractStream (i : Nat) (b : Block) : Option (String × Nat) :=
  match b.media with
  | some (MediaValue.readStream sid) => some (toString i, sid)
  | _ => none

/-- The transformed content sequence. -/
def transformedContent (content : List Block) : List Block :=
  content.enum.map (fun p => transformBlock p.1 p.2)

/-- The side map of extracted binary streams, keyed by stringified position
(insertion order = index order). -/
def mediaStreams (content : List Block) : List (String × Nat) :=
  content.enum.filterMap (fun p => extractStream p.1 p.2)

/-- The argument of `#transformNpfParams` after destructuring
`{ tags, content, ...params }`. -/
structure NpfParams where
  tags : Option (List String)
  content : List Block
  rest : List (String × JsonValue)

/-- `Array.isArray(tags) && { tags: tags.join(",") }`: the joined `tags`
field, or no field at all. -/
def tagsFields : Option (List String) → List (String × JsonValue)
  | none => []
  | some ts => [("tags", JsonValue.str (String.intercalate "," ts))]

/-- The JSON image of a media value under `JSON.stringify` (Node `Buffer`
serializes as `{type: "Buffer", data: [...]}`; stream objects have no
JSON-relevant enumerable state in this model). -/
def mediaToJson : MediaValue → JsonValue
  | MediaValue.readStream _ => JsonValue.obj []
  | MediaValue.buffer bytes =>
    JsonValue.obj
      [("type", JsonValue.str "Buffer"),
       ("data", JsonValue.arr (bytes.map (fun b => JsonValue.num (Int.ofNat b))))]
  | MediaValue.readable _ => JsonValue.obj []
  | MediaValue.jsonLike j => j

/-- The JSON image of one content block (block field order modeled as the
other fields followed by `media`). -/
def blockToJson (b : Block) : JsonValue :=
  match b.media with
  | none => JsonValue.obj b.rest
  | some m => JsonValue.obj (b.rest ++ [("media", mediaToJson m)])

/-- The JSON image of `transformedParams = { ...params, ...transformedTags,
content: transformedContent }`. -/
def transformedParamsJson (p : NpfParams) : JsonValue :=
  JsonValue.obj
    (p.rest ++ tagsFields p.tags ++
      [("content", JsonValue.arr ((transformedContent p.content).map blockToJson))])

/-- The result of `#transformNpfParams`: either the plain transformed
record, or the collapsed multipart shape
`{ json: JSON.stringify(transformedParams), ...mediaStreams }`. -/
inductive NpfOutput where
  | plain (rest : List (String × JsonValue)) (tags : List (String × JsonValue))
      (content : List Block)
  | multipartPayload (jsonText : String) (streams : List (String × Nat))

/-- `#transformNpfParams`. -/
def transformNpfParams (p : NpfParams) : NpfOutput :=
  if (mediaStreams p.content).isEmpty then
    NpfOutput.plain p.rest (tagsFields p.tags) (transformedContent p.content)
  else
    NpfOutput.multipartPayload (serializeJson (transformedParamsJson p))
      (mediaStreams p.content)

/-! ## Credential resolution (`Client.constructor`) -/

/-- A raw JavaScript option value as the constructor may receive it. -/
inductive JsValue where
  | vstr (s : String)
  | vnum (n : Int)
  | vbool (b : Bool)
  | vnull

/-- JavaScript truthiness of an option value. -/
def JsValue.truthy : JsValue → Bool
  | JsValue.vstr s => !(s.isEmpty)
  | JsValue.vnum n => !(n == 0)
  | JsValue.vbool b => b
  | JsValue.vnull => false

/-- The credential-bearing constructor options; `none` models an absent
property. -/
structure ClientOptions where
  consumer_key : Option JsValue := none
  consumer_secret : Option JsValue := none
  token : Option JsValue := none
  token_secret : Option JsValue := none

/-- `["consumer_secret", "token_secret", "token"].some(hasOwnProperty)`. -/
def hasAnyOauthExtra (o : ClientOptions) : Bool :=
  o.consumer_secret.isSome || o.token_secret.isSome || o.token.isSome

/-- The validation `!options.x || typeof options.x !== "string"` passes
exactly for truthy strings (= non-empty strings). -/
def isTruthyString : Option JsValue → Bool
  | some (JsValue.vstr s) => !(s.isEmpty)
  | _ => false

/-- The string payload of a validated option. -/
def getStringValue : Option JsValue → String
  | some (JsValue.vstr s) => s
  | _ => ""

/-- The resolved credential variant. -/
inductive Credentials where
  | noneAuth
  | apiKey (key : String)
  | oauth1 (consumer_key consumer_secret token token_secret : String)

/-- The credential-resolution part of `Client.constructor`: thrown
`TypeError`s are the `Except.error` cases; the initializer
`#credentials = { auth: "none" }` stands when no branch assigns. -/
def resolveCredentials (o : ClientOptions) : Except String Credentials :=
  if hasAnyOauthExtra o then
    if !(isTruthyString o.consumer_key) then
      Except.error "Provide consumer_key or all oauth credentials. Invalid consumer_key provided."
    else if !(isTruthyString o.consumer_secret) then
      Except.error "Provide consumer_key or all oauth credentials. Invalid consumer_secret provided."
    else if !(isTruthyString o.token) then
      Except.error "Provide consumer_key or all oauth credentials. Invalid token provided."
    else if !(isTruthyString o.token_secret) then
      Except.error "Provide consumer_key or all oauth credentials. Invalid token_secret provided."
    else
      Except.ok (Credentials.oauth1 (getStringValue o.consumer_key)
        (getStringValue o.consumer_secret) (getStringValue o.token)
        (getStringValue o.token_secret))
  else
    match o.consumer_key with
    | some v =>
      if v.truthy then
        match v with
        | JsValue.vstr s => Except.ok (Credentials.apiKey s)
        | _ => Except.error "You must provide a consumer_key."
      else Except.ok Credentials.noneAuth
    | none => Except.ok Credentials.noneAuth

/-! ## Transport module selection (`#makeRequest`) -/

/-- The two Node transport modules. -/
inductive TransportModule where
  | plainHttp
  | secureHttps

/-- `const httpModel = url.protocol === "http" ? http : https;`. -/
def selectTransportModule (u : Url) : TransportModule :=
  if u.protocol == "http" then TransportModule.plainHttp
  else TransportModule.secureHttps

/-! ## Claim-side constructions -/

/-- A well-formed success envelope echoing `resp` under its `response`
field (the wire shape the remote API uses, as the round-trip property
describes it). -/
def mkSuccessEnvelope (meta : JsonValue) (resp : JsonValue) : JsonValue :=
  JsonValue.obj [("meta", meta), ("response", resp)]

/-- A query key is `k`-relevant when it is the bare key `k` or one of the
indexed keys `k[i]` with `i < n`. -/
def relevantKey (k : String) (n : Nat) (key : String) : Bool :=
  key == k || (List.range n).any (fun i => key == indexName k i)

/-- The query keys one logical parameter emits on a GET request. -/
def emittedKeys (e : String × ParamValue) : List String :=
  match e.2 with
  | ParamValue.jsonVal (JsonValue.arr ys) =>
    (List.range ys.length).map (indexName e.1)
  | _ => [e.1]

/-! ## Helper lemmas -/

lemma foldl_stepRequest_called (evs : List RequestEvent) (s : RequestCompletionState)
    (h : s.callbackCalled = true) : evs.foldl stepRequest s = s := by
  induction evs with
  | nil => rfl
  | cons e evs ih =>
    simp only [List.foldl_cons, stepRequest, h, if_true]
    exact ih

lemma foldl_stepRequest_invariant (evs : List RequestEvent) (s : RequestCompletionState)
    (h : s.callbackCalled = s.outcome.isSome) :
    (evs.foldl stepRequest s).callbackCalled = (evs.foldl stepRequest s).outcome.isSome := by
  induction evs generalizing s with
  | nil => exact h
  | cons e evs ih =>
    simp only [List.foldl_cons]
    by_cases hc : s.callbackCalled = true
    · simp only [stepRequest, hc, if_true]
      exact ih s h
    · simp only [stepRequest, hc, if_false]
      exact ih _ rfl

lemma runRequest_invariant (evs : List RequestEvent) :
    (runRequest evs).callbackCalled = (runRequest evs).outcome.isSome :=
  foldl_stepRequest_invariant evs _ rfl

lemma nullCoalesce_some (v d : JsonValue) (hv : v ≠ JsonValue.null) :
    nullCoalesce (some v) d = v := by
  cases v <;> first | rfl | exact absurd rfl hv

lemma nullCoalesce_nullish (a : Option JsonValue) (d : JsonValue)
    (ha : a = none ∨ a = some JsonValue.null) : nullCoalesce a d = d := by
  rcases ha with h | h <;> subst h <;> rfl

lemma optProp_some (v : JsonValue) (k : String) :
    optProp (some v) k = getProp v k := by
  cases v <;> rfl

lemma getProp_eq_some_obj (j : JsonValue) (k : String) (v : JsonValue)
    (h : getProp j k = some v) : ∃ fs, j = JsonValue.obj fs := by
  cases j <;> simp [getProp] at h
  exact ⟨_, rfl⟩

/-! ## C1: one-shot completion -/

/-- C1: at most one of the competing completion events (transport `error`
or response `end`) produces the request's outcome: once the promise has
settled (`outcome.isSome`), every further event from the same request
leaves the settled outcome unchanged; and the outcome is always the one
produced by the first event to fire. -/
theorem c1_completion_one_shot (evs extra : List RequestEvent)
    (h : (runRequest evs).outcome.isSome = true) :
    (runRequest (evs ++ extra)).outcome = (runRequest evs).outcome
    ∧ ∀ (e : RequestEvent) (rest : List RequestEvent),
        (runRequest (e :: rest)).outcome = some (handleEvent e) := by
  constructor
  · have hcalled : (runRequest evs).callbackCalled = true := by
      rw [runRequest_invariant]; exact h
    show (List.foldl stepRequest _ (evs ++ extra)).outcome = _
    rw [List.foldl_append]
    have hrun : List.foldl stepRequest { callbackCalled := false, outcome := none } evs
        = runRequest evs := rfl
    rw [hrun, foldl_stepRequest_called extra _ hcalled]
  · intro e rest
    show (List.foldl stepRequest _ (e :: rest)).outcome = _
    rw [List.foldl_cons]
    have hstep : stepRequest { callbackCalled := false, outcome := none } e
        = { callbackCalled := true, outcome := some (handleEvent e) } := rfl
    rw [hstep, foldl_stepRequest_called rest _ rfl]

/-- Witness for C1: a request whose `end` event has settled the promise
ignores a later transport `error` event. -/
theorem c1_completion_one_shot_witness :
    (runRequest [RequestEvent.endEvent 200
      (some (JsonValue.obj [("response", JsonValue.num 1)])) "body"]).outcome.isSome = true
    ∧ (runRequest ([RequestEvent.endEvent 200
        (some (JsonValue.obj [("response", JsonValue.num 1)])) "body"]
        ++ [RequestEvent.errorEvent "socket hang up"])).outcome
      = (runRequest [RequestEvent.endEvent 200
          (some (JsonValue.obj [("response", JsonValue.num 1)])) "body"]).outcome :=
  ⟨rfl, (c1_completion_one_shot
    [RequestEvent.endEvent 200 (some (JsonValue.obj [("response", JsonValue.num 1)])) "body"]
    [RequestEvent.errorEvent "socket hang up"] rfl).1⟩

/-! ## C2: response classification -/

/-- C2: the `end` handler classifies a completed response as follows: a
body that does not parse as JSON rejects with the malformed-response error
carrying the raw body text regardless of status; a status outside
[200, 399] rejects with an API error whose message is the nested
`meta.msg` field if present (non-nullish), else the flat `error` field,
else the literal `"unknown"`; a success status with a truthy `response`
field resolves with exactly that inner value; and a success status without
one rejects with a malformed-response error. -/
theorem c2_response_classification (status : Nat) (raw : String) :
    classifyResponse status none raw = Outcome.failure (RequestError.malformedRaw raw)
    ∧ (∀ j : JsonValue, (status < 200 ∨ status > 399) →
        classifyResponse status (some j) raw
          = Outcome.failure (RequestError.apiError status (apiErrorMessage j))
        ∧ (∀ m v, getProp j "meta" = some m → m ≠ JsonValue.null →
            getProp m "msg" = some v → v ≠ JsonValue.null → apiErrorMessage j = v)
        ∧ (∀ w, (optProp (optProp (some j) "meta") "msg" = none
              ∨ optProp (optProp (some j) "meta") "msg" = some JsonValue.null) →
            getProp j "error" = some w → w ≠ JsonValue.null → apiErrorMessage j = w)
        ∧ ((optProp (optProp (some j) "meta") "msg" = none
              ∨ optProp (optProp (some j) "meta") "msg" = some JsonValue.null) →
           (optProp (some j) "error" = none ∨ optProp (some j) "error" = some JsonValue.null) →
           apiErrorMessage j = JsonValue.str "unknown"))
    ∧ (∀ j : JsonValue, 200 ≤ status → status ≤ 399 →
        (∀ r, getProp j "response" = some r → r.truthy = true →
          classifyResponse status (some j) raw = Outcome.success r)
        ∧ ((∀ r, optProp (some j) "response" = some r → r.truthy = false) →
          classifyResponse status (some j) raw
            = Outcome.failure (RequestError.malformedParsed j))) := by
  refine ⟨rfl, ?_, ?_⟩
  · intro j hstat
    have hguard : (status < 200 || status > 399) = true := by
      rcases hstat with h | h <;> simp [h]
    refine ⟨by simp [classifyResponse, hguard], ?_, ?_, ?_⟩
    · intro m v hmeta hm hmsg hv
      obtain ⟨fs, rfl⟩ := getProp_eq_some_obj _ _ _ hmeta
      unfold apiErrorMessage
      rw [optProp_some, hmeta, optProp_some, hmsg,
        nullCoalesce_some _ _ hv]
    · intro w hnull herr hw
      obtain ⟨fs, rfl⟩ := getProp_eq_some_obj _ _ _ herr
      unfold apiErrorMessage
      rw [nullCoalesce_nullish _ _ hnull, optProp_some, herr,
        nullCoalesce_some _ _ hw]
    · intro hnull herrnull
      unfold apiErrorMessage
      rw [nullCoalesce_nullish _ _ hnull, nullCoalesce_nullish _ _ herrnull]
  · intro j hlo hhi
    have hguard : (status < 200 || status > 399) = false := by
      simp; omega
    constructor
    · intro r hresp htruthy
      obtain ⟨fs, rfl⟩ := getProp_eq_some_obj _ _ _ hresp
      have hopt : optProp (some (JsonValue.obj fs)) "response" = some r := hresp
      simp [classifyResponse, hguard, hopt, htruthy]
    · intro hfalsy
      cases hopt : optProp (some j) "response" with
      | none => simp [classifyResponse, hguard, hopt]
      | some r =>
        have := hfalsy r hopt
        simp [classifyResponse, hguard, hopt, this]

/-- Witness for C2: a 500 response with a `meta.msg` message classifies as
an API error carrying that message; a 200 response with a truthy
`response` field resolves with the inner value. -/
theorem c2_response_classification_witness :
    classifyResponse 500
        (some (JsonValue.obj [("meta", JsonValue.obj
          [("status", JsonValue.num 500), ("msg", JsonValue.str "Limit Exceeded")])]))
        "body"
      = Outcome.failure (RequestError.apiError 500 (JsonValue.str "Limit Exceeded"))
    ∧ classifyResponse 200
        (some (JsonValue.obj [("response", JsonValue.obj [("id", JsonValue.num 7)])])) "body"
      = Outcome.success (JsonValue.obj [("id", JsonValue.num 7)]) := by
  constructor
  · have h := (c2_response_classification 500 "body").2.1
      (JsonValue.obj [("meta", JsonValue.obj
        [("status", JsonValue.num 500), ("msg", JsonValue.str "Limit Exceeded")])])
      (Or.inr (by decide))
    have hmsg := h.2.1 (JsonValue.obj
        [("status", JsonValue.num 500), ("msg", JsonValue.str "Limit Exceeded")])
      (JsonValue.str "Limit Exceeded") rfl (by intro hh; cases hh) rfl (by intro hh; cases hh)
    rw [h.1, hmsg]
  · exact ((c2_response_classification 200 "body").2.2
      (JsonValue.obj [("response", JsonValue.obj [("id", JsonValue.num 7)])])
      (by decide) (by decide)).1 (JsonValue.obj [("id", JsonValue.num 7)]) rfl rfl

/-! ## C8: transport module selection -/

/-- C8 (code evaluation at the failing input): the claim says a URL with
the plain `http` scheme is sent through the plain transport, but the code
compares `url.protocol` — which is the scheme *with* a trailing colon,
`"http:"` — against the bare string `"http"`, so the comparison never
holds and the secure (`https`) module is selected even for an `http` URL. -/
theorem c8_http_scheme_selects_secure_transport :
    selectTransportModule ⟨"http", "api.tumblr.com", "/", []⟩ = TransportModule.secureHttps
    ∧ Url.protocol ⟨"http", "api.tumblr.com", "/", []⟩ = "http:"
    ∧ selectTransportModule ⟨"https", "api.tumblr.com", "/", []⟩
        = TransportModule.secureHttps := by
  refine ⟨?_, rfl, ?_⟩ <;> rfl

/-! ## C9: credential validation at construction -/

/-- C9 counterexample: the claim says an empty-string `consumer_key`
supplied alone throws a configuration error and never silently produces an
unauthenticated client; but `else if (options.consumer_key)` treats the
empty string as falsy, skips both credential branches, and leaves the
initializer `{auth: "none"}` in place with no error. -/
theorem c9_counterexample_empty_consumer_key_silently_none :
    resolveCredentials { consumer_key := some (JsValue.vstr "") }
      = Except.ok Credentials.noneAuth := rfl

/-- C9 (amended): supplying any of `consumer_secret`, `token`,
`token_secret` while the four oauth1 fields are not all non-empty strings
throws a configuration error; with all four valid the oauth1 credentials
are resolved; with none of those three supplied, a truthy non-string
`consumer_key` alone throws, a falsy `consumer_key` (empty string, zero,
false, null) or an absent one silently yields an unauthenticated client,
and a non-empty string `consumer_key` alone yields apiKey credentials. -/
theorem c9_amended_credential_validation (o : ClientOptions) :
    (hasAnyOauthExtra o = true →
      ((isTruthyString o.consumer_key = false ∨ isTruthyString o.consumer_secret = false
          ∨ isTruthyString o.token = false ∨ isTruthyString o.token_secret = false) →
        ∃ msg, resolveCredentials o = Except.error msg)
      ∧ (isTruthyString o.consumer_key = true → isTruthyString o.consumer_secret = true →
          isTruthyString o.token = true → isTruthyString o.token_secret = true →
          resolveCredentials o = Except.ok (Credentials.oauth1
            (getStringValue o.consumer_key) (getStringValue o.consumer_secret)
            (getStringValue o.token) (getStringValue o.token_secret))))
    ∧ (hasAnyOauthExtra o = false →
      (∀ v, o.consumer_key = some v → v.truthy = true → (∀ s, v ≠ JsValue.vstr s) →
        ∃ msg, resolveCredentials o = Except.error msg)
      ∧ (∀ v, o.consumer_key = some v → v.truthy = false →
        resolveCredentials o = Except.ok Credentials.noneAuth)
      ∧ (o.consumer_key = none → resolveCredentials o = Except.ok Credentials.noneAuth)
      ∧ (∀ s, o.consumer_key = some (JsValue.vstr s) → s ≠ "" →
        resolveCredentials o = Except.ok (Credentials.apiKey s))) := by
  constructor
  · intro hextra
    constructor
    · intro hbad
      by_cases h1 : isTruthyString o.consumer_key
      · by_cases h2 : isTruthyString o.consumer_secret
        · by_cases h3 : isTruthyString o.token
          · by_cases h4 : isTruthyString o.token_secret
            · simp [h1, h2, h3, h4] at hbad
            · exact ⟨"Provide consumer_key or all oauth credentials. Invalid token_secret provided.",
                by simp [resolveCredentials, hextra, h1, h2, h3, h4]⟩
          · exact ⟨"Provide consumer_key or all oauth credentials. Invalid token provided.",
              by simp [resolveCredentials, hextra, h1, h2, h3]⟩
        · exact ⟨"Provide consumer_key or all oauth credentials. Invalid consumer_secret provided.",
            by simp [resolveCredentials, hextra, h1, h2]⟩
      · exact ⟨"Provide consumer_key or all oauth credentials. Invalid consumer_key provided.",
          by simp [resolveCredentials, hextra, h1]⟩
    · intro h1 h2 h3 h4
      simp [resolveCredentials, hextra, h1, h2, h3, h4]
  · intro hextra
    refine ⟨?_, ?_, ?_, ?_⟩
    · intro v hck htruthy hnonstr
      refine ⟨"You must provide a consumer_key.", ?_⟩
      cases v with
      | vstr s => exact absurd rfl (hnonstr s)
      | vnum n =>
        simp [JsValue.truthy] at htruthy
        simp [resolveCredentials, hextra, hck, JsValue.truthy, htruthy]
      | vbool b =>
        simp [JsValue.truthy] at htruthy
        simp [resolveCredentials, hextra, hck, JsValue.truthy, htruthy]
      | vnull => simp [JsValue.truthy] at htruthy
    · intro v hck hfalsy
      simp [resolveCredentials, hextra, hck, hfalsy]
    · intro hck
      simp [resolveCredentials, hextra, hck]
    · intro s hck hs
      have hempty : s.isEmpty = false := by
        rw [Bool.eq_false_iff]
        intro h
        exact hs ((String.isEmpty_iff s).mp h)
      have htruthy : (JsValue.vstr s).truthy = true := by
        simp [JsValue.truthy, hempty]
      simp [resolveCredentials, hextra, hck, htruthy]

/-- Witness for C9 (amended): a partial oauth set (consumer key and secret
but no token) throws, and a non-empty consumer key alone resolves as
apiKey credentials. -/
theorem c9_amended_credential_validation_witness :
    (∃ msg, resolveCredentials
        { consumer_key := some (JsValue.vstr "ck"), consumer_secret := some (JsValue.vstr "cs") }
      = Except.error msg)
    ∧ resolveCredentials { consumer_key := some (JsValue.vstr "ck") }
      = Except.ok (Credentials.apiKey "ck") :=
  ⟨((c9_amended_credential_validation
      { consumer_key := some (JsValue.vstr "ck"),
        consumer_secret := some (JsValue.vstr "cs") }).1 rfl).1
    (Or.inr (Or.inr (Or.inl rfl))),
   ((c9_amended_credential_validation
      { consumer_key := some (JsValue.vstr "ck") }).2 rfl).2.2.2 "ck" rfl (by decide)⟩

/-! ## Enumeration helper lemmas -/

lemma getElem?_enumFrom_eq {α : Type} (l : List α) :
    ∀ (k i : Nat), (l.enumFrom k)[i]? = (l[i]?).map (fun a => (k + i, a)) := by
  induction l with
  | nil => intro k i; simp
  | cons a l ih =>
    intro k i
    cases i with
    | zero => simp
    | succ i =>
      rw [show List.enumFrom k (a :: l) = (k, a) :: List.enumFrom (k + 1) l from rfl]
      rw [List.getElem?_cons_succ, List.getElem?_cons_succ, ih (k + 1) i]
      have harith : k + 1 + i = k + (i + 1) := by omega
      rw [harith]

lemma getElem?_enum_eq {α : Type} (l : List α) (i : Nat) :
    (l.enum)[i]? = (l[i]?).map (fun a => (i, a)) := by
  show (l.enumFrom 0)[i]? = _
  rw [getElem?_enumFrom_eq l 0 i]
  simp

lemma mem_enumFrom_of_getElem?_eq {α : Type} (l : List α) :
    ∀ (k i : Nat) (a : α), l[i]? = some a → (k + i, a) ∈ l.enumFrom k := by
  induction l with
  | nil => intro k i a h; simp at h
  | cons b l ih =>
    intro k i a h
    cases i with
    | zero =>
      simp at h
      subst h
      simp [List.enumFrom]
    | succ i =>
      simp at h
      have := ih (k + 1) i a h
      have harith : k + 1 + i = k + (i + 1) := by omega
      rw [harith] at this
      exact List.mem_cons_of_mem _ this

lemma mem_enum_of_getElem?_eq {α : Type} (l : List α) (i : Nat) (a : α)
    (h : l[i]? = some a) : (i, a) ∈ l.enum := by
  have := mem_enumFrom_of_getElem?_eq l 0 i a h
  simpa using this

lemma getElem?_eq_of_mem_enumFrom {α : Type} (l : List α) :
    ∀ (k : Nat) (p : Nat × α), p ∈ l.enumFrom k → k ≤ p.1 ∧ l[p.1 - k]? = some p.2 := by
  induction l with
  | nil => intro k p h; simp at h
  | cons b l ih =>
    intro k p h
    rcases List.mem_cons.mp h with h | h
    · subst h
      refine ⟨Nat.le_refl k, ?_⟩
      simp
    · obtain ⟨hle, hget⟩ := ih (k + 1) p h
      refine ⟨by omega, ?_⟩
      have harith : p.1 - k = (p.1 - (k + 1)) + 1 := by omega
      rw [harith]
      simpa using hget

lemma getElem?_eq_of_mem_enum {α : Type} (l : List α) (p : Nat × α)
    (h : p ∈ l.enum) : l[p.1]? = some p.2 := by
  have := getElem?_eq_of_mem_enumFrom l 0 p h
  simpa using this.2

/-! ## C4: payload encoding -/

/-- C4: the encoder chooses multipart exactly when one of the keys `data`,
`data64`, `json` is present; in multipart mode a string value under key
`json` becomes a part with declared content type `application/json`, an
array value becomes one part per element under the indexed sub-keys
`key[i]` in array order, and a boolean value becomes the literal text
`"true"` / `"false"`; otherwise the whole payload is serialized as one
JSON body. -/
theorem c4_payload_encoding (data : List (String × ParamValue)) :
    (hasKey data "data" = false → hasKey data "data64" = false → hasKey data "json" = false →
      encodeRequestBody data
        = RequestBody.jsonBody
            (serializeJson (JsonValue.obj (data.map (fun p => (p.1, paramValueToJson p.2))))))
    ∧ ((hasKey data "data" || hasKey data "data64" || hasKey data "json") = true →
      encodeRequestBody data
        = RequestBody.multipartBody (data.flatMap (fun p => appendFormEntry p.1 p.2)))
    ∧ (∀ s, appendFormEntry "json" (ParamValue.jsonVal (JsonValue.str s))
        = [⟨"json", AppendedValue.str s, some "application/json"⟩])
    ∧ (∀ k xs, (appendFormEntry k (ParamValue.jsonVal (JsonValue.arr xs))).length = xs.length
        ∧ ∀ i x, xs[i]? = some x →
            (appendFormEntry k (ParamValue.jsonVal (JsonValue.arr xs)))[i]?
              = some (FormPart.mk (indexName k i) (appendedValue x) none))
    ∧ (∀ k, appendFormEntry k (ParamValue.jsonVal (JsonValue.bool true))
          = [⟨k, AppendedValue.str "true", none⟩]
        ∧ appendFormEntry k (ParamValue.jsonVal (JsonValue.bool false))
          = [⟨k, AppendedValue.str "false", none⟩]) := by
  refine ⟨?_, ?_, ?_, ?_, ?_⟩
  · intro h1 h2 h3
    simp [encodeRequestBody, usesMultipart, h1, h2, h3]
  · intro h
    simp [encodeRequestBody, usesMultipart, h]
  · intro s
    simp [appendFormEntry]
  · intro k xs
    constructor
    · simp [appendFormEntry, List.enum_length]
    · intro i x hx
      show ((xs.enum).map
        (fun p => FormPart.mk (indexName k p.1) (appendedValue p.2) none))[i]? = _
      rw [List.getElem?_map, getElem?_enum_eq, hx]
      rfl
  · intro k
    exact ⟨rfl, rfl⟩

/-- Witness for C4: a payload without the trigger keys is one JSON body; a
payload with a `json` key is multipart. -/
theorem c4_payload_encoding_witness :
    encodeRequestBody [("id", ParamValue.jsonVal (JsonValue.str "5"))]
      = RequestBody.jsonBody (serializeJson (JsonValue.obj
          ([("id", ParamValue.jsonVal (JsonValue.str "5"))].map
            (fun p => (p.1, paramValueToJson p.2)))))
    ∧ encodeRequestBody [("json", ParamValue.jsonVal (JsonValue.str "x"))]
      = RequestBody.multipartBody
          ([("json", ParamValue.jsonVal (JsonValue.str "x"))].flatMap
            (fun p => appendFormEntry p.1 p.2)) :=
  ⟨(c4_payload_encoding [("id", ParamValue.jsonVal (JsonValue.str "5"))]).1 rfl rfl rfl,
   (c4_payload_encoding [("json", ParamValue.jsonVal (JsonValue.str "x"))]).2.1 rfl⟩

/-! ## C7: JSON round trip -/

lemma map_pair_eta {α β : Type} (l : List (α × β)) :
    l.map (fun p => (p.1, p.2)) = l := by
  induction l with
  | nil => rfl
  | cons p l ih => simp [ih]

lemma hasKey_map_jsonVal_eq_false (l : List (String × JsonValue)) (k : String)
    (h : ∀ p ∈ l, p.1 ≠ k) :
    hasKey (l.map (fun p => (p.1, ParamValue.jsonVal p.2))) k = false := by
  induction l with
  | nil => rfl
  | cons p l ih =>
    have hp : (p.1 == k) = false := by
      rw [beq_eq_false_iff_ne]
      exact h p (List.mem_cons_self p l)
    simp only [List.map_cons, hasKey, List.any_cons] at *
    rw [hp]
    simpa [hasKey] using ih (fun q hq => h q (List.mem_cons_of_mem p hq))

/-- C7: a payload with none of the keys `data`, `data64`, `json` is encoded
as one JSON body, and the classifier, fed a well-formed success envelope
echoing that object under its `response` field, resolves with exactly the
original payload object. -/
theorem c7_json_roundtrip (fields : List (String × JsonValue)) (meta : JsonValue)
    (raw : String)
    (h : ∀ p ∈ fields, p.1 ≠ "data" ∧ p.1 ≠ "data64" ∧ p.1 ≠ "json") :
    encodeRequestBody (fields.map (fun p => (p.1, ParamValue.jsonVal p.2)))
      = RequestBody.jsonBody (serializeJson (JsonValue.obj fields))
    ∧ classifyResponse 200 (some (mkSuccessEnvelope meta (JsonValue.obj fields))) raw
      = Outcome.success (JsonValue.obj fields) := by
  constructor
  · have h1 : hasKey (fields.map (fun p => (p.1, ParamValue.jsonVal p.2))) "data" = false :=
      hasKey_map_jsonVal_eq_false fields "data" (fun p hp => (h p hp).1)
    have h2 : hasKey (fields.map (fun p => (p.1, ParamValue.jsonVal p.2))) "data64" = false :=
      hasKey_map_jsonVal_eq_false fields "data64" (fun p hp => (h p hp).2.1)
    have h3 : hasKey (fields.map (fun p => (p.1, ParamValue.jsonVal p.2))) "json" = false :=
      hasKey_map_jsonVal_eq_false fields "json" (fun p hp => (h p hp).2.2)
    rw [encodeRequestBody]
    simp only [usesMultipart, h1, h2, h3, Bool.or_false, Bool.false_or, if_false]
    rw [List.map_map]
    have hcomp : ((fun p => (p.1, paramValueToJson p.2)) ∘
        (fun (p : String × JsonValue) => (p.1, ParamValue.jsonVal p.2)))
        = fun p => (p.1, p.2) := rfl
    rw [hcomp, map_pair_eta]
    simp
  · rfl

/-- Witness for C7: a concrete single-field payload round-trips. -/
theorem c7_json_roundtrip_witness :
    encodeRequestBody ([("id", JsonValue.str "x")].map
        (fun p => (p.1, ParamValue.jsonVal p.2)))
      = RequestBody.jsonBody (serializeJson (JsonValue.obj [("id", JsonValue.str "x")]))
    ∧ classifyResponse 200
        (some (mkSuccessEnvelope JsonValue.null (JsonValue.obj [("id", JsonValue.str "x")])))
        "body"
      = Outcome.success (JsonValue.obj [("id", JsonValue.str "x")]) :=
  c7_json_roundtrip [("id", JsonValue.str "x")] JsonValue.null "body" (by decide)

/-! ## C6: write request planning -/

lemma hasKey_append (m l : List (String × ParamValue)) (k : String) :
    hasKey (m ++ l) k = (hasKey m k || hasKey l k) := by
  simp [hasKey, List.any_append]

lemma lookupValue_append_of_hasKey (m l : List (String × ParamValue)) (k : String)
    (h : hasKey m k = true) : lookupValue (m ++ l) k = lookupValue m k := by
  induction m with
  | nil => simp [hasKey] at h
  | cons p m ih =>
    cases hk : (p.1 == k) with
    | true =>
      show lookupValue ((p.1, p.2) :: (m ++ l)) k = lookupValue ((p.1, p.2) :: m) k
      simp [lookupValue, hk]
    | false =>
      have hm : hasKey m k = true := by
        simp [hasKey, List.any_cons, hk] at h
        simpa [hasKey] using h
      show lookupValue ((p.1, p.2) :: (m ++ l)) k = lookupValue ((p.1, p.2) :: m) k
      simp [lookupValue, hk, ih hm]

lemma mergeQueryEntry_hasKey_mono (m : List (String × ParamValue))
    (kv : String × String) (k : String) (h : hasKey m k = true) :
    hasKey (mergeQueryEntry m kv) k = true := by
  unfold mergeQueryEntry
  by_cases hk : hasKey m kv.1
  · simp [hk, h]
  · simp [hk, hasKey_append, h]

lemma foldl_mergeQueryEntry_hasKey_mono (q : List (String × String))
    (m : List (String × ParamValue)) (k : String) (h : hasKey m k = true) :
    hasKey (q.foldl mergeQueryEntry m) k = true := by
  induction q generalizing m with
  | nil => exact h
  | cons kv q ih =>
    simp only [List.foldl_cons]
    exact ih _ (mergeQueryEntry_hasKey_mono m kv k h)

lemma foldl_mergeQueryEntry_lookup (q : List (String × String))
    (m : List (String × ParamValue)) (k : String) (h : hasKey m k = true) :
    lookupValue (q.foldl mergeQueryEntry m) k = lookupValue m k := by
  induction q generalizing m with
  | nil => rfl
  | cons kv q ih =>
    simp only [List.foldl_cons]
    rw [show mergeQueryEntry m kv
        = (if hasKey m kv.1 then m else m ++ [(kv.1, ParamValue.jsonVal (JsonValue.str kv.2))])
      from rfl]
    by_cases hk : hasKey m kv.1
    · simp only [hk, if_true]
      exact ih m h
    · simp only [hk, if_false]
      rw [ih _ (by simp [hasKey_append, h])]
      exact lookupValue_append_of_hasKey m _ k h

lemma foldl_mergeQueryEntry_absorbs (q : List (String × String))
    (m : List (String × ParamValue)) (k : String) (v : String)
    (hmem : (k, v) ∈ q) : hasKey (q.foldl mergeQueryEntry m) k = true := by
  induction q generalizing m with
  | nil => simp at hmem
  | cons kv q ih =>
    simp only [List.foldl_cons]
    rcases List.mem_cons.mp hmem with heq | hmem'
    · have hk1 : kv.1 = k := by rw [← heq]
      by_cases hk : hasKey m kv.1
      · apply foldl_mergeQueryEntry_hasKey_mono
        unfold mergeQueryEntry
        rw [if_pos hk, ← hk1]
        exact hk
      · apply foldl_mergeQueryEntry_hasKey_mono
        unfold mergeQueryEntry
        rw [if_neg hk]
        simp [hasKey_append, hasKey, hk1]
    · exact ih _ hmem'

/-- C6: on a write (POST/PUT) request, each query-string key supplied on
the path is merged into the payload only when the payload does not already
contain that key (the explicit logical parameter's value is the one kept on
collision), the URL's query string is cleared afterward, and an empty
resulting payload is returned as an absent payload (`none`), never as an
empty structure. -/
theorem c6_write_request_planning (u : Url) (ps : List (String × ParamValue))
    (m : Method) (hm : m ≠ Method.get) :
    (∀ k, hasKey ps k = true →
      lookupValue (writeRequestData u ps) k = lookupValue ps k)
    ∧ (∀ k v, (k, v) ∈ u.query → hasKey (writeRequestData u ps) k = true)
    ∧ (prepareRequestUrlAndRequestData u m (some ps)).1.query = []
    ∧ ((prepareRequestUrlAndRequestData u m (some ps)).2 = none
        ↔ writeRequestData u ps = [])
    ∧ (∀ l, (prepareRequestUrlAndRequestData u m (some ps)).2 = some l → l ≠ []) := by
  refine ⟨?_, ?_, ?_, ?_, ?_⟩
  · intro k hk
    exact foldl_mergeQueryEntry_lookup u.query ps k hk
  · intro k v hmem
    exact foldl_mergeQueryEntry_absorbs u.query ps k v hmem
  · cases m with
    | get => exact absurd rfl hm
    | post => rfl
    | put => rfl
  · cases m with
    | get => exact absurd rfl hm
    | post =>
      show (if (writeRequestData u ps).isEmpty then none
          else some (writeRequestData u ps)) = none ↔ _
      by_cases h : (writeRequestData u ps).isEmpty
      · simp [h, List.isEmpty_iff.mp h]
      · simp [h]
        intro hnil
        rw [hnil] at h
        exact h rfl
    | put =>
      show (if (writeRequestData u ps).isEmpty then none
          else some (writeRequestData u ps)) = none ↔ _
      by_cases h : (writeRequestData u ps).isEmpty
      · simp [h, List.isEmpty_iff.mp h]
      · simp [h]
        intro hnil
        rw [hnil] at h
        exact h rfl
  · cases m with
    | get => exact absurd rfl hm
    | post =>
      intro l hl
      have h2 : (if (writeRequestData u ps).isEmpty then none
          else some (writeRequestData u ps)) = some l := hl
      by_cases h : (writeRequestData u ps).isEmpty
      · rw [if_pos h] at h2
        cases h2
      · rw [if_neg h] at h2
        intro hnil
        apply h
        have hwl : writeRequestData u ps = l := Option.some_inj.mp h2
        rw [hwl, hnil]
        rfl
    | put =>
      intro l hl
      have h2 : (if (writeRequestData u ps).isEmpty then none
          else some (writeRequestData u ps)) = some l := hl
      by_cases h : (writeRequestData u ps).isEmpty
      · rw [if_pos h] at h2
        cases h2
      · rw [if_neg h] at h2
        intro hnil
        apply h
        have hwl : writeRequestData u ps = l := Option.some_inj.mp h2
        rw [hwl, hnil]
        rfl

/-- Witness for C6: with payload key `k` colliding with a path query `k`
and a fresh path query key `j`, the payload's value for `k` is kept, `j` is
merged in, the query is cleared, and the payload is present. -/
theorem c6_write_request_planning_witness :
    lookupValue (writeRequestData ⟨"https", "api.tumblr.com", "/v2/x",
        [("k", "qv"), ("j", "jv")]⟩ [("k", ParamValue.jsonVal (JsonValue.str "pv"))]) "k"
      = lookupValue [("k", ParamValue.jsonVal (JsonValue.str "pv"))] "k"
    ∧ hasKey (writeRequestData ⟨"https", "api.tumblr.com", "/v2/x",
        [("k", "qv"), ("j", "jv")]⟩ [("k", ParamValue.jsonVal (JsonValue.str "pv"))]) "j"
      = true
    ∧ (prepareRequestUrlAndRequestData ⟨"https", "api.tumblr.com", "/v2/x",
        [("k", "qv"), ("j", "jv")]⟩ Method.post
        (some [("k", ParamValue.jsonVal (JsonValue.str "pv"))])).1.query = [] := by
  have h := c6_write_request_planning
    ⟨"https", "api.tumblr.com", "/v2/x", [("k", "qv"), ("j", "jv")]⟩
    [("k", ParamValue.jsonVal (JsonValue.str "pv"))] Method.post (by intro hh; cases hh)
  exact ⟨h.1 "k" rfl, h.2.1 "j" "jv" (by simp), h.2.2.1⟩

/-! ## C3 / C10: NPF content transformation -/

lemma transformedContent_getElem? (content : List Block) (i : Nat) :
    (transformedContent content)[i]? = (content[i]?).map (transformBlock i) := by
  unfold transformedContent
  rw [List.getElem?_map, getElem?_enum_eq]
  cases content[i]? <;> rfl

lemma transformedContent_length (content : List Block) :
    (transformedContent content).length = content.length := by
  unfold transformedContent
  rw [List.length_map, List.enum_length]

lemma mem_mediaStreams_of_readStream (content : List Block) (i : Nat) (b : Block)
    (sid : Nat) (hb : content[i]? = some b)
    (hm : b.media = some (MediaValue.readStream sid)) :
    (toString i, sid) ∈ mediaStreams content := by
  unfold mediaStreams
  apply List.mem_filterMap.mpr
  refine ⟨(i, b), mem_enum_of_getElem?_eq content i b hb, ?_⟩
  simp [extractStream, hm]

lemma mediaStreams_source (content : List Block) (e : String × Nat)
    (he : e ∈ mediaStreams content) :
    ∃ (j : Nat) (b : Block) (sid : Nat), content[j]? = some b
      ∧ b.media = some (MediaValue.readStream sid) ∧ e = (toString j, sid) := by
  unfold mediaStreams at he
  obtain ⟨p, hp, hext⟩ := List.mem_filterMap.mp he
  have hget := getElem?_eq_of_mem_enum content p hp
  cases hmedia : p.2.media with
  | none => rw [extractStream, hmedia] at hext; cases hext
  | some mv =>
    cases mv with
    | readStream sid =>
      refine ⟨p.1, p.2, sid, hget, hmedia, ?_⟩
      simp [extractStream, hmedia] at hext
      exact hext.symm
    | buffer bytes => rw [extractStream, hmedia] at hext; cases hext
    | readable sid => rw [extractStream, hmedia] at hext; cases hext
    | jsonLike j => rw [extractStream, hmedia] at hext; cases hext

lemma mediaStreams_nil_of_no_readStream (content : List Block)
    (h : ∀ (j : Nat) (b : Block), content[j]? = some b →
      ∀ sid, b.media ≠ some (MediaValue.readStream sid)) :
    mediaStreams content = [] := by
  unfold mediaStreams
  rw [List.filterMap_eq_nil_iff]
  intro p hp
  have hget := getElem?_eq_of_mem_enum content p hp
  cases hmedia : p.2.media with
  | none => simp [extractStream, hmedia]
  | some mv =>
    cases mv with
    | readStream sid => exact absurd hmedia (h p.1 p.2 hget sid)
    | buffer bytes => simp [extractStream, hmedia]
    | readable sid => simp [extractStream, hmedia]
    | jsonLike j => simp [extractStream, hmedia]

/-- C3: the content transformer replaces the `media` field of every
`ReadStream`-bearing block at position `i` with `{identifier: String(i)}`
and records its stream in the side map under key `String(i)`; blocks
without such media pass through unchanged; block order and count are
preserved; and the output collapses to the multipart shape — a `json` key
holding the JSON text of all other fields plus the transformed content,
next to the streams under their stringified index keys — precisely when at
least one binary part was extracted. -/
theorem c3_npf_transformation (p : NpfParams) :
    (transformedContent p.content).length = p.content.length
    ∧ (∀ (i : Nat) (b : Block) (sid : Nat), p.content[i]? = some b →
        b.media = some (MediaValue.readStream sid) →
        (transformedContent p.content)[i]?
          = some { b with media := some (MediaValue.jsonLike (identifierObj i)) }
        ∧ (toString i, sid) ∈ mediaStreams p.content)
    ∧ (∀ (i : Nat) (b : Block), p.content[i]? = some b →
        (∀ sid, b.media ≠ some (MediaValue.readStream sid)) →
        (transformedContent p.content)[i]? = some b)
    ∧ (mediaStreams p.content = [] →
        transformNpfParams p
          = NpfOutput.plain p.rest (tagsFields p.tags) (transformedContent p.content))
    ∧ (mediaStreams p.content ≠ [] →
        transformNpfParams p
          = NpfOutput.multipartPayload (serializeJson (transformedParamsJson p))
              (mediaStreams p.content))
    ∧ (mediaStreams p.content ≠ [] ↔ ∃ (i : Nat) (b : Block) (sid : Nat),
        p.content[i]? = some b ∧ b.media = some (MediaValue.readStream sid)) := by
  refine ⟨transformedContent_length p.content, ?_, ?_, ?_, ?_, ?_⟩
  · intro i b sid hb hm
    constructor
    · rw [transformedContent_getElem?, hb]
      simp [transformBlock, hm]
    · exact mem_mediaStreams_of_readStream p.content i b sid hb hm
  · intro i b hb hm
    rw [transformedContent_getElem?, hb]
    cases hmedia : b.media with
    | none => simp [transformBlock, hmedia]
    | some mv =>
      cases mv with
      | readStream sid => exact absurd hmedia (hm sid)
      | buffer bytes => simp [transformBlock, hmedia]
      | readable sid => simp [transformBlock, hmedia]
      | jsonLike j => simp [transformBlock, hmedia]
  · intro hnil
    unfold transformNpfParams
    rw [if_pos (List.isEmpty_iff.mpr hnil)]
  · intro hne
    unfold transformNpfParams
    rw [if_neg (by
      intro hh
      exact hne (List.isEmpty_iff.mp hh))]
  · constructor
    · intro hne
      cases hstreams : mediaStreams p.content with
      | nil => exact absurd hstreams hne
      | cons e rest =>
        obtain ⟨j, b, sid, hget, hm, _⟩ := mediaStreams_source p.content e
          (by rw [hstreams]; exact List.mem_cons_self e rest)
        exact ⟨j, b, sid, hget, hm⟩
    · intro ⟨i, b, sid, hb, hm⟩ hnil
      have := mem_mediaStreams_of_readStream p.content i b sid hb hm
      rw [hnil] at this
      cases this

/-- Witness for C3: a two-block sequence whose second block carries a
`ReadStream` collapses to multipart, the stream is recorded under key
`"1"`, and the first block passes through unchanged. -/
theorem c3_npf_transformation_witness :
    (transformedContent [Block.mk none [("type", JsonValue.str "text")],
        Block.mk (some (MediaValue.readStream 7)) [("type", JsonValue.str "image")]])[1]?
      = some { Block.mk (some (MediaValue.readStream 7)) [("type", JsonValue.str "image")]
          with media := some (MediaValue.jsonLike (identifierObj 1)) }
    ∧ ("1", 7) ∈ mediaStreams [Block.mk none [("type", JsonValue.str "text")],
        Block.mk (some (MediaValue.readStream 7)) [("type", JsonValue.str "image")]]
    ∧ (transformedContent [Block.mk none [("type", JsonValue.str "text")],
        Block.mk (some (MediaValue.readStream 7)) [("type", JsonValue.str "image")]])[0]?
      = some (Block.mk none [("type", JsonValue.str "text")]) := by
  have h := c3_npf_transformation
    ⟨none, [Block.mk none [("type", JsonValue.str "text")],
      Block.mk (some (MediaValue.readStream 7)) [("type", JsonValue.str "image")]], []⟩
  have h2 := h.2.1 1 (Block.mk (some (MediaValue.readStream 7)) [("type", JsonValue.str "image")])
    7 rfl rfl
  have h3 := h.2.2.1 0 (Block.mk none [("type", JsonValue.str "text")]) rfl
    (by intro sid hh; cases hh)
  exact ⟨h2.1, h2.2, h3⟩

/-- C10: the transformer treats a block's `media` as binary only when it is
an `fs.ReadStream` instance; a block whose media is anything else (a
`Buffer`, a generic readable stream, a URL string, a structural object) or
absent passes through completely unchanged, every recorded stream comes
from a `ReadStream` block, and when no block carries `ReadStream` media the
output stays the plain (non-multipart) shape. -/
theorem c10_non_readstream_media_passthrough (p : NpfParams) (i : Nat) (b : Block)
    (hb : p.content[i]? = some b)
    (hm : ∀ sid, b.media ≠ some (MediaValue.readStream sid)) :
    (transformedContent p.content)[i]? = some b
    ∧ (∀ e ∈ mediaStreams p.content, ∃ (j : Nat) (b' : Block) (sid : Nat),
        p.content[j]? = some b' ∧ b'.media = some (MediaValue.readStream sid)
        ∧ e = (toString j, sid))
    ∧ ((∀ (j : Nat) (b' : Block), p.content[j]? = some b' →
          ∀ sid, b'.media ≠ some (MediaValue.readStream sid)) →
        transformNpfParams p
          = NpfOutput.plain p.rest (tagsFields p.tags) (transformedContent p.content)) := by
  refine ⟨?_, ?_, ?_⟩
  · rw [transformedContent_getElem?, hb]
    cases hmedia : b.media with
    | none => simp [transformBlock, hmedia]
    | some mv =>
      cases mv with
      | readStream sid => exact absurd hmedia (hm sid)
      | buffer bytes => simp [transformBlock, hmedia]
      | readable sid => simp [transformBlock, hmedia]
      | jsonLike j => simp [transformBlock, hmedia]
  · intro e he
    exact mediaStreams_source p.content e he
  · intro hall
    unfold transformNpfParams
    rw [if_pos (List.isEmpty_iff.mpr (mediaStreams_nil_of_no_readStream p.content hall))]

/-- Witness for C10: a block with `Buffer` media passes through unchanged
and the output stays plain. -/
theorem c10_non_readstream_media_passthrough_witness :
    (transformedContent [Block.mk (some (MediaValue.buffer [1, 2]))
        [("type", JsonValue.str "image")]])[0]?
      = some (Block.mk (some (MediaValue.buffer [1, 2])) [("type", JsonValue.str "image")])
    ∧ transformNpfParams ⟨none, [Block.mk (some (MediaValue.buffer [1, 2]))
        [("type", JsonValue.str "image")]], []⟩
      = NpfOutput.plain [] (tagsFields none)
          (transformedContent [Block.mk (some (MediaValue.buffer [1, 2]))
            [("type", JsonValue.str "image")]]) := by
  have h := c10_non_readstream_media_passthrough
    ⟨none, [Block.mk (some (MediaValue.buffer [1, 2])) [("type", JsonValue.str "image")]], []⟩
    0 (Block.mk (some (MediaValue.buffer [1, 2])) [("type", JsonValue.str "image")])
    rfl (by intro sid hh; cases hh)
  refine ⟨h.1, h.2.2 ?_⟩
  intro j b' hb' sid hh
  cases j with
  | zero =>
    simp at hb'
    rw [← hb'] at hh
    cases hh
  | succ j => simp at hb'

/-! ## C5: GET array expansion -/

lemma spRemove_filter_key (q : List (String × String)) (key : String)
    (pred : String → Bool) (hk : pred key = false) :
    (spRemove q key).filter (fun p => pred p.1)
      = q.filter (fun p => pred p.1) := by
  induction q with
  | nil => rfl
  | cons p q ih =>
    show (if p.1 == key then spRemove q key else (p.1, p.2) :: spRemove q key).filter _ = _
    by_cases hpk : (p.1 == key) = true
    · have hp1 : p.1 = key := beq_iff_eq.mp hpk
      rw [if_pos hpk, ih]
      have hpred : pred p.1 = false := by rw [hp1]; exact hk
      rw [List.filter_cons]
      simp [hpred]
    · rw [if_neg hpk, List.filter_cons, List.filter_cons]
      cases hpred : pred (p.1, p.2).1 <;> simp [hpred, ih]

lemma spSet_filter_irrelevant (q : List (String × String)) (key v : String)
    (pred : String → Bool) (hk : pred key = false) :
    (spSet q key v).filter (fun p => pred p.1)
      = q.filter (fun p => pred p.1) := by
  induction q with
  | nil =>
    show [(key, v)].filter _ = _
    simp [List.filter_cons, hk]
  | cons p q ih =>
    show (if p.1 == key then (key, v) :: spRemove q key
        else (p.1, p.2) :: spSet q key v).filter _ = _
    by_cases hpk : (p.1 == key) = true
    · have hp1 : p.1 = key := beq_iff_eq.mp hpk
      rw [if_pos hpk, List.filter_cons, List.filter_cons]
      have hpred : pred p.1 = false := by rw [hp1]; exact hk
      simp only [hk, hpred]
      rw [spRemove_filter_key q key pred hk]
      simp
    · rw [if_neg hpk, List.filter_cons, List.filter_cons]
      cases hpred : pred (p.1, p.2).1 <;> simp [hpred, ih]

lemma spRemove_filter_self (q : List (String × String)) (key : String) :
    (spRemove q key).filter (fun p => p.1 == key) = [] := by
  induction q with
  | nil => rfl
  | cons p q ih =>
    show (if p.1 == key then spRemove q key else (p.1, p.2) :: spRemove q key).filter _ = _
    by_cases hpk : (p.1 == key) = true
    · rw [if_pos hpk]
      exact ih
    · rw [if_neg hpk, List.filter_cons]
      have hpk' : ((p.1, p.2).1 == key) = false := by
        rw [← Bool.not_eq_true]
        exact hpk
      simp only [hpk']
      simpa using ih

lemma spSet_filter_self (q : List (String × String)) (key v : String) :
    (spSet q key v).filter (fun p => p.1 == key) = [(key, v)] := by
  induction q with
  | nil =>
    show [(key, v)].filter _ = _
    simp [List.filter_cons]
  | cons p q ih =>
    show (if p.1 == key then (key, v) :: spRemove q key
        else (p.1, p.2) :: spSet q key v).filter _ = _
    by_cases hpk : (p.1 == key) = true
    · rw [if_pos hpk, List.filter_cons]
      have hkv : (((key, v) : String × String).1 == key) = true := by simp
      simp only [hkv, if_true]
      rw [spRemove_filter_self q key]
    · rw [if_neg hpk, List.filter_cons]
      have hpk' : ((p.1, p.2).1 == key) = false := by
        rw [← Bool.not_eq_true]
        exact hpk
      simp only [hpk']
      simpa using ih

lemma mem_expandArray (k : String) (xs : List JsonValue) (p : String × String)
    (hp : p ∈ expandArray k xs) :
    ∃ i : Nat, i < xs.length ∧ ∃ x, xs[i]? = some x
      ∧ p = (indexName k i, jsonToString x) := by
  unfold expandArray at hp
  obtain ⟨q', hq', heq⟩ := List.mem_map.mp hp
  have hget := getElem?_eq_of_mem_enum xs q' hq'
  have hlt : q'.1 < xs.length := by
    obtain ⟨h, _⟩ := List.getElem?_eq_some.mp hget
    exact h
  exact ⟨q'.1, hlt, q'.2, hget, heq.symm⟩

lemma expandArray_filter_self (k : String) (xs : List JsonValue) :
    (expandArray k xs).filter (fun p => relevantKey k xs.length p.1)
      = expandArray k xs := by
  rw [List.filter_eq_self]
  intro p hp
  obtain ⟨i, hlt, x, _, heq⟩ := mem_expandArray k xs p hp
  rw [heq]
  show relevantKey k xs.length (indexName k i) = true
  unfold relevantKey
  have hany : ((List.range xs.length).any (fun j => indexName k i == indexName k j)) = true := by
    rw [List.any_eq_true]
    exact ⟨i, List.mem_range.mpr hlt, by simp⟩
  rw [hany, Bool.or_true]

lemma stepGetParam_filter_irrelevant (q : List (String × String))
    (e : String × ParamValue) (k : String) (n : Nat)
    (h : ∀ s ∈ emittedKeys e, relevantKey k n s = false) :
    (stepGetParam q e).filter (fun p => relevantKey k n p.1)
      = q.filter (fun p => relevantKey k n p.1) := by
  obtain ⟨k1, v1⟩ := e
  cases v1 with
  | jsonVal j =>
    cases j with
    | arr xs =>
      show (q ++ expandArray k1 xs).filter _ = _
      rw [List.filter_append]
      have hnil : (expandArray k1 xs).filter (fun p => relevantKey k n p.1) = [] := by
        rw [List.filter_eq_nil_iff]
        intro p hp
        obtain ⟨i, hlt, x, _, heq⟩ := mem_expandArray k1 xs p hp
        have hcover : indexName k1 i ∈ emittedKeys (k1, ParamValue.jsonVal (JsonValue.arr xs)) := by
          show _ ∈ (List.range xs.length).map (indexName k1)
          exact List.mem_map.mpr ⟨i, List.mem_range.mpr hlt, rfl⟩
        rw [heq]
        simp [h _ hcover]
      rw [hnil, List.append_nil]
    | null => exact spSet_filter_irrelevant q k1 _ _ (h k1 (by simp [emittedKeys]))
    | bool b => exact spSet_filter_irrelevant q k1 _ _ (h k1 (by simp [emittedKeys]))
    | num nn => exact spSet_filter_irrelevant q k1 _ _ (h k1 (by simp [emittedKeys]))
    | str s => exact spSet_filter_irrelevant q k1 _ _ (h k1 (by simp [emittedKeys]))
    | obj fs => exact spSet_filter_irrelevant q k1 _ _ (h k1 (by simp [emittedKeys]))
  | stream sid => exact spSet_filter_irrelevant q k1 _ _ (h k1 (by simp [emittedKeys]))

lemma foldl_stepGetParam_filter (l : List (String × ParamValue))
    (q : List (String × String)) (k : String) (n : Nat)
    (h : ∀ e ∈ l, ∀ s ∈ emittedKeys e, relevantKey k n s = false) :
    (l.foldl stepGetParam q).filter (fun p => relevantKey k n p.1)
      = q.filter (fun p => relevantKey k n p.1) := by
  induction l generalizing q with
  | nil => rfl
  | cons e l ih =>
    rw [List.foldl_cons]
    rw [ih _ (fun e' he' => h e' (List.mem_cons_of_mem e he'))]
    exact stepGetParam_filter_irrelevant q e k n (h e (List.mem_cons_self e l))

lemma indexName_ne_self (k : String) (i : Nat) : indexName k i ≠ k := by
  intro hcontra
  have hlen := congrArg String.length hcontra
  unfold indexName at hlen
  rw [String.length_append, String.length_append, String.length_append] at hlen
  have h1 : ("[" : String).length = 1 := rfl
  have h2 : ("]" : String).length = 1 := rfl
  rw [h1, h2] at hlen
  omega

/-- C5: on a GET request, an array-valued logical parameter `k` with `n`
elements is expanded into exactly the `n` query pairs `k[0] .. k[n-1]` in
element order with no bare `k=` pair (under the hypotheses that the path
carried no `k`-relevant query pair and that no other logical parameter
emits a `k`-relevant key); a scalar parameter is `set` directly with last
write winning (after the set, exactly one pair with that key remains,
holding the new value); and the planner returns the URL with no payload. -/
theorem c5_get_array_expansion (u : Url) (pre post : List (String × ParamValue))
    (k : String) (xs : List JsonValue)
    (hq : ∀ p ∈ u.query, relevantKey k xs.length p.1 = false)
    (hpre : ∀ e ∈ pre, ∀ s ∈ emittedKeys e, relevantKey k xs.length s = false)
    (hpost : ∀ e ∈ post, ∀ s ∈ emittedKeys e, relevantKey k xs.length s = false) :
    ((prepareRequestUrlAndRequestData u Method.get
        (some (pre ++ (k, ParamValue.jsonVal (JsonValue.arr xs)) :: post))).1.query.filter
          (fun p => relevantKey k xs.length p.1))
      = expandArray k xs
    ∧ (∀ v, (k, v) ∉ (prepareRequestUrlAndRequestData u Method.get
        (some (pre ++ (k, ParamValue.jsonVal (JsonValue.arr xs)) :: post))).1.query)
    ∧ (prepareRequestUrlAndRequestData u Method.get
        (some (pre ++ (k, ParamValue.jsonVal (JsonValue.arr xs)) :: post))).2 = none
    ∧ (∀ (q : List (String × String)) (key s : String),
        (spSet q key s).filter (fun p => p.1 == key) = [(key, s)])
    ∧ (∀ (q : List (String × String)) (key : String) (j : JsonValue),
        (∀ ys, j ≠ JsonValue.arr ys) →
        stepGetParam q (key, ParamValue.jsonVal j) = spSet q key (jsonToString j)) := by
  have hmain : ((prepareRequestUrlAndRequestData u Method.get
      (some (pre ++ (k, ParamValue.jsonVal (JsonValue.arr xs)) :: post))).1.query.filter
        (fun p => relevantKey k xs.length p.1)) = expandArray k xs := by
    have hq1 : (prepareRequestUrlAndRequestData u Method.get
        (some (pre ++ (k, ParamValue.jsonVal (JsonValue.arr xs)) :: post))).1.query
        = (pre ++ (k, ParamValue.jsonVal (JsonValue.arr xs)) :: post).foldl
            stepGetParam u.query := rfl
    rw [hq1, List.foldl_append, List.foldl_cons]
    rw [foldl_stepGetParam_filter post _ k xs.length hpost]
    have hstep : stepGetParam (pre.foldl stepGetParam u.query)
        (k, ParamValue.jsonVal (JsonValue.arr xs))
        = (pre.foldl stepGetParam u.query) ++ expandArray k xs := rfl
    rw [hstep, List.filter_append]
    rw [foldl_stepGetParam_filter pre u.query k xs.length hpre]
    have hinit : u.query.filter (fun p => relevantKey k xs.length p.1) = [] := by
      rw [List.filter_eq_nil_iff]
      intro p hp
      simp [hq p hp]
    rw [hinit, expandArray_filter_self, List.nil_append]
  refine ⟨hmain, ?_, rfl, ?_, ?_⟩
  · intro v hmem
    have hpred : relevantKey k xs.length (k, v).1 = true := by
      show relevantKey k xs.length k = true
      unfold relevantKey
      simp
    have hfilter : (k, v) ∈ ((prepareRequestUrlAndRequestData u Method.get
        (some (pre ++ (k, ParamValue.jsonVal (JsonValue.arr xs)) :: post))).1.query.filter
          (fun p => relevantKey k xs.length p.1)) :=
      List.mem_filter.mpr ⟨hmem, hpred⟩
    rw [hmain] at hfilter
    obtain ⟨i, _, x, _, heq⟩ := mem_expandArray k xs (k, v) hfilter
    have hk : k = indexName k i := congrArg Prod.fst heq
    exact indexName_ne_self k i hk.symm
  · intro q key s
    exact spSet_filter_self q key s
  · intro q key j hj
    cases j with
    | arr ys => exact absurd rfl (hj ys)
    | null => rfl
    | bool b => rfl
    | num n => rfl
    | str s2 => rfl
    | obj fs => rfl

/-- Witness for C5: a GET request with a scalar `limit` parameter and the
array parameter `tag: ["a", "b"]` emits exactly `tag[0]=a, tag[1]=b`. -/
theorem c5_get_array_expansion_witness :
    (∀ p ∈ (Url.mk "https" "api.tumblr.com" "/v2/tagged" []).query,
      relevantKey "tag" 2 p.1 = false)
    ∧ ((prepareRequestUrlAndRequestData ⟨"https", "api.tumblr.com", "/v2/tagged", []⟩
        Method.get (some ([("limit", ParamValue.jsonVal (JsonValue.num 5))]
          ++ ("tag", ParamValue.jsonVal (JsonValue.arr [JsonValue.str "a", JsonValue.str "b"]))
            :: []))).1.query.filter
          (fun p => relevantKey "tag" [JsonValue.str "a", JsonValue.str "b"].length p.1))
      = expandArray "tag" [JsonValue.str "a", JsonValue.str "b"]
    ∧ (prepareRequestUrlAndRequestData ⟨"https", "api.tumblr.com", "/v2/tagged", []⟩
        Method.get (some ([("limit", ParamValue.jsonVal (JsonValue.num 5))]
          ++ ("tag", ParamValue.jsonVal (JsonValue.arr [JsonValue.str "a", JsonValue.str "b"]))
            :: []))).2 = none := by
  have h := c5_get_array_expansion ⟨"https", "api.tumblr.com", "/v2/tagged", []⟩
    [("limit", ParamValue.jsonVal (JsonValue.num 5))] []
    "tag" [JsonValue.str "a", JsonValue.str "b"]
    (by decide) (by decide) (by decide)
  exact ⟨by decide, h.1, h.2.2.1⟩
